import Mathlib

set_option maxRecDepth 100000

/-!
Shallow embedding of the hash-join hash table from src/core/vdbe/hash_table.rs.

Modelling conventions:
* 64-bit floats are carried as their IEEE-754 binary64 bit patterns (a Nat
  below 2^64).  The table only hashes the little-endian bytes of a float and
  compares floats with the Rust == operator; both are functions of the bit
  pattern, and Rust f64 == is reflected exactly by f64Eq below.
* i64 integers are modelled as Int; to_le_bytes uses the two complement bit
  pattern, i.e. reduction modulo 2^64.
* Machine arithmetic that wraps in Rust (FNV-1a multiplication) is written
  with an explicit % 2^64.
* Text and Blob carry their byte sequences as List Nat.  Value and ValueRef
  collapse to a single type; as_ref is the identity of the model.
* ImmutableRecord is opaque to the hash table except for the byte length of
  get_payload, so it is modelled by its payload bytes.
* Fallible operations return Except HashError; turso_assert failures are
  HashError.stateViolation, the memory-budget error (LimboError::InternalError)
  is HashError.memBudgetExceeded, and Rust runtime panics reachable in this
  file (division by zero / out-of-bounds indexing on the bucket array) are
  HashError.crash.
* The IO handle and the temp_file slot are inert in the source (the spill path
  is unimplemented and spilled is never set), so they are not carried.
-/

/-- Scalar value used in join keys; mirrors the Value / ValueRef variants used
by hash_table.rs: Null, Integer(i64), Float(f64 as bit pattern), Text, Blob. -/
inductive Value where
  | null : Value
  | integer : Int → Value
  | float : Nat → Value
  | text : List Nat → Value
  | blob : List Nat → Value
deriving DecidableEq

/-- Constructor tag of a Value, used to state that mismatched type pairs
compare unequal. -/
def Value.tag : Value → Nat
  | Value.null => 0
  | Value.integer _ => 1
  | Value.float _ => 2
  | Value.text _ => 3
  | Value.blob _ => 4

/-- Row payload; ImmutableRecord is used by the hash table only through
get_payload().len(), so the model keeps just the payload bytes. -/
structure ImmutableRecord where
  payload : List Nat
deriving DecidableEq

/-- Payload accessor, mirroring ImmutableRecord::get_payload. -/
def ImmutableRecord.get_payload (r : ImmutableRecord) : List Nat := r.payload

/-- FNV-1a offset basis (hash_table.rs line 16). -/
def FNV_OFFSET_BASIS : Nat := 0xcbf29ce484222325

/-- FNV-1a prime (hash_table.rs line 17). -/
def FNV_PRIME : Nat := 0x100000001b3

/-- One FNV-1a step: xor in a byte, then wrapping-multiply by the prime. -/
def fnvStep (h b : Nat) : Nat := ((h ^^^ b) * FNV_PRIME) % 2 ^ 64

/-- Two-complement 64-bit pattern of an i64, as a Nat. -/
def intToBits (i : Int) : Nat := (i % (2 ^ 64 : Int)).toNat

/-- Little-endian byte decomposition of a 64-bit pattern (to_le_bytes). -/
def toLeBytes8 (n : Nat) : List Nat :=
  [n % 256, n / 2 ^ 8 % 256, n / 2 ^ 16 % 256, n / 2 ^ 24 % 256,
   n / 2 ^ 32 % 256, n / 2 ^ 40 % 256, n / 2 ^ 48 % 256, n / 2 ^ 56 % 256]

/-- Fold one value into the FNV-1a accumulator, following the match in
hash_join_key: a single zero byte for Null, the 8 little-endian bytes of the
bit pattern for Integer and Float, the raw bytes for Text and Blob. -/
def hashValue (h : Nat) : Value → Nat
  | Value.null => fnvStep h 0
  | Value.integer i => (toLeBytes8 (intToBits i)).foldl fnvStep h
  | Value.float bits => (toLeBytes8 bits).foldl fnvStep h
  | Value.text bytes => bytes.foldl fnvStep h
  | Value.blob bytes => bytes.foldl fnvStep h

/-- Hash function for join keys (hash_table.rs, hash_join_key): FNV-1a over
the canonical byte encoding of every value of the tuple, in order. -/
def hash_join_key (key_values : List Value) : Nat :=
  key_values.foldl hashValue FNV_OFFSET_BASIS

/-- NaN test on an IEEE-754 binary64 bit pattern: exponent all ones and
non-zero mantissa. -/
def f64IsNaN (bits : Nat) : Bool := bits / 2 ^ 52 % 2 ^ 11 == 2047 && bits % 2 ^ 52 != 0

/-- Zero test on an IEEE-754 binary64 bit pattern: +0.0 or -0.0. -/
def f64IsZero (bits : Nat) : Bool := bits == 0 || bits == 0x8000000000000000

/-- Rust f64 == on bit patterns: IEEE numeric equality.  Two patterns compare
equal iff they are the same non-NaN pattern, or both are zeros (+0.0 == -0.0).
NaN compares unequal to everything, itself included. -/
def f64Eq (b1 b2 : Nat) : Bool := (b1 == b2 && !f64IsNaN b1) || (f64IsZero b1 && f64IsZero b2)

/-- Check if two values are equal (hash_table.rs, values_equal). -/
def values_equal : Value → Value → Bool
  | Value.null, Value.null => true
  | Value.integer i1, Value.integer i2 => i1 == i2
  | Value.float f1, Value.float f2 => f64Eq f1 f2
  | Value.text t1, Value.text t2 => t1 == t2
  | Value.blob b1, Value.blob b2 => b1 == b2
  | _, _ => false

/-- Check if two key value arrays are equal (hash_table.rs, keys_equal):
false if the lengths differ, otherwise positional conjunction of
values_equal. -/
def keys_equal (key1 key2 : List Value) : Bool :=
  key1.length == key2.length && (List.zip key1 key2).all fun p => values_equal p.1 p.2

/-- State machine states for hash table operations (hash_table.rs,
HashTableState).  Spilled is declared but never entered. -/
inductive HashTableState where
  | Building : HashTableState
  | Probing : HashTableState
  | Spilled : HashTableState
  | Closed : HashTableState
deriving DecidableEq

/-- Failure modes of the table operations; see the module docstring. -/
inductive HashError where
  | stateViolation : HashError
  | memBudgetExceeded : HashError
  | crash : HashError
deriving DecidableEq

/-- A single entry in a hash table bucket (hash_table.rs, HashEntry). -/
structure HashEntry where
  hash : Nat
  key_values : List Value
  row_data : ImmutableRecord
deriving DecidableEq

/-- Per-key footprint used by HashEntry::size_bytes: Null = 1, Integer = 8,
Float = 8, Text and Blob = byte length. -/
def valueSizeBytes : Value → Nat
  | Value.null => 1
  | Value.integer _ => 8
  | Value.float _ => 8
  | Value.text t => t.length
  | Value.blob b => b.length

/-- Size of an entry in bytes (HashEntry::size_bytes): key footprints plus
row payload length plus 8 bytes for the stored hash. -/
def HashEntry.size_bytes (e : HashEntry) : Nat :=
  (e.key_values.map valueSizeBytes).sum + e.row_data.get_payload.length + 8

/-- Size of a bucket in bytes (HashBucket::size_bytes).  HashBucket is a
newtype over its entry vector and is modelled as List HashEntry. -/
def bucket_size_bytes (entries : List HashEntry) : Nat :=
  (entries.map HashEntry.size_bytes).sum

/-- Configuration for the hash table (hash_table.rs, HashTableConfig). -/
structure HashTableConfig where
  initial_buckets : Nat
  mem_budget : Nat
  num_keys : Nat
deriving DecidableEq

/-- The main hash table structure (hash_table.rs, HashTable).  The io handle
and temp_file slot are inert in the source and not carried; buckets are
List HashEntry as in bucket_size_bytes. -/
structure HashTable where
  buckets : List (List HashEntry)
  num_entries : Nat
  mem_used : Nat
  mem_budget : Nat
  num_keys : Nat
  spilled : Bool
  state : HashTableState
  probe_bucket_idx : Nat
  probe_entry_idx : Nat
  current_probe_keys : Option (List Value)
deriving DecidableEq

/-- Create a new hash table (HashTable::new). -/
def HashTable.new (config : HashTableConfig) : HashTable where
  buckets := List.replicate config.initial_buckets []
  num_entries := 0
  mem_used := 0
  mem_budget := config.mem_budget
  num_keys := config.num_keys
  spilled := false
  state := HashTableState.Building
  probe_bucket_idx := 0
  probe_entry_idx := 0
  current_probe_keys := none

/-- Match filter shared by probe, next_match and HashBucket::find_matches:
hash equality first, then key equality. -/
def entryMatches (h : Nat) (k : List Value) (e : HashEntry) : Bool :=
  e.hash == h && keys_equal e.key_values k

/-- Linear scan of a bucket suffix for the first matching entry, returning
the absolute index of the match and the entry; idx is the absolute index of
the head of the list being scanned.  This is the loop body of probe (scanning
from 0) and of next_match (scanning from probe_entry_idx). -/
def findMatchAux (h : Nat) (k : List Value) : List HashEntry → Nat → Option (Nat × HashEntry)
  | [], _ => none
  | e :: rest, idx =>
    if entryMatches h k e then some (idx, e) else findMatchAux h k rest (idx + 1)

/-- Entry created by insert for a given key/row build pair: the cached hash
of the key tuple, the owned key tuple and the row (HashEntry::new as called
from HashTable::insert). -/
def mkEntry (p : List Value × ImmutableRecord) : HashEntry where
  hash := hash_join_key p.1
  key_values := p.1
  row_data := p.2

/-- Bucket placement and counter updates performed by a committing insert:
append the entry to bucket hash mod num_buckets, increment num_entries, add
size_bytes to mem_used (hash_table.rs lines 287-292). -/
def insertEntry (t : HashTable) (e : HashEntry) : HashTable :=
  { t with
    buckets := t.buckets.set (e.hash % t.buckets.length)
      (t.buckets.getD (e.hash % t.buckets.length) [] ++ [e]),
    num_entries := t.num_entries + 1,
    mem_used := t.mem_used + e.size_bytes }

/-- Insert a row into the hash table (HashTable::insert).  The turso_assert
on the state comes first; then the memory-budget check, which rejects the
insert before any mutation; then bucket placement together with both counter
updates.  A zero-length bucket array would make the Rust modulus panic, which
the model reports as HashError.crash. -/
def HashTable.insert (t : HashTable) (key_values : List Value) (row_data : ImmutableRecord) :
    Except HashError HashTable :=
  if t.state ≠ HashTableState.Building then Except.error HashError.stateViolation
  else if t.mem_used + (mkEntry (key_values, row_data)).size_bytes > t.mem_budget ∧
      t.spilled = false then
    Except.error HashError.memBudgetExceeded
  else if t.buckets.length = 0 then Except.error HashError.crash
  else Except.ok (insertEntry t (mkEntry (key_values, row_data)))

/-- Finalize the build phase and prepare for probing (HashTable::finalize_build). -/
def HashTable.finalize_build (t : HashTable) : Except HashError HashTable :=
  if t.state ≠ HashTableState.Building then Except.error HashError.stateViolation
  else Except.ok { t with state := HashTableState.Probing }

/-- Cursor update performed by probe before scanning: cache the probe keys,
set the bucket index, reset the entry index. -/
def HashTable.setCursor (t : HashTable) (k : List Value) (b i : Nat) : HashTable :=
  { t with current_probe_keys := some k, probe_bucket_idx := b, probe_entry_idx := i }

/-- Probe the hash table with the given keys (HashTable::probe): assert the
Probing state, cache the probe keys, compute the hash and the bucket index,
reset the cursor, scan the bucket from index 0; on a match set
probe_entry_idx to the match index + 1 and return the entry. -/
def HashTable.probe (t : HashTable) (probe_keys : List Value) :
    Except HashError (HashTable × Option HashEntry) :=
  if t.state ≠ HashTableState.Probing then Except.error HashError.stateViolation
  else if t.buckets.length = 0 then Except.error HashError.crash
  else
    match findMatchAux (hash_join_key probe_keys) probe_keys
        (t.buckets.getD (hash_join_key probe_keys % t.buckets.length) []) 0 with
    | some (idx, entry) =>
      Except.ok
        (t.setCursor probe_keys (hash_join_key probe_keys % t.buckets.length) (idx + 1),
         some entry)
    | none =>
      Except.ok (t.setCursor probe_keys (hash_join_key probe_keys % t.buckets.length) 0, none)

/-- Get the next matching entry for the current probe keys
(HashTable::next_match): assert the Probing state; if no probe keys are
cached, return none (the ? operator); otherwise rescan the cached bucket from
probe_entry_idx with the same filter, advancing the cursor on a match. -/
def HashTable.next_match (t : HashTable) : Except HashError (HashTable × Option HashEntry) :=
  if t.state ≠ HashTableState.Probing then Except.error HashError.stateViolation
  else
    match t.current_probe_keys with
    | none => Except.ok (t, none)
    | some probe_keys =>
      if t.buckets.length ≤ t.probe_bucket_idx then Except.error HashError.crash
      else
        match findMatchAux (hash_join_key probe_keys) probe_keys
            ((t.buckets.getD t.probe_bucket_idx []).drop t.probe_entry_idx)
            t.probe_entry_idx with
        | some (idx, entry) => Except.ok ({ t with probe_entry_idx := idx + 1 }, some entry)
        | none => Except.ok (t, none)

/-- Close the hash table and free resources (HashTable::close): enter the
Closed state, clear the buckets, zero both counters.  The cursor fields are
left as they are, exactly as in the source. -/
def HashTable.close (t : HashTable) : HashTable :=
  { t with
    state := HashTableState.Closed,
    buckets := [],
    num_entries := 0,
    mem_used := 0 }

/-- Statistics about a hash table (hash_table.rs, HashTableStats).  The
avg_chain_length field is an f64 quotient of the two chain-length counters
and is omitted; no claim references it. -/
structure HashTableStats where
  num_buckets : Nat
  num_entries : Nat
  mem_used : Nat
  mem_budget : Nat
  spilled : Bool
  max_chain_length : Nat
  num_empty_buckets : Nat
deriving DecidableEq

/-- Get statistics about the hash table (HashTable::stats); read-only. -/
def HashTable.stats (t : HashTable) : HashTableStats where
  num_buckets := t.buckets.length
  num_entries := t.num_entries
  mem_used := t.mem_used
  mem_budget := t.mem_budget
  spilled := t.spilled
  max_chain_length := t.buckets.foldl (fun m b => if b.length = 0 then m else max m b.length) 0
  num_empty_buckets := (t.buckets.filter fun b => b.length = 0).length

/-- Check if the hash table is empty (HashTable::is_empty). -/
def HashTable.is_empty (t : HashTable) : Bool := t.num_entries == 0

/-- One external operation on the table, for stating whole-lifecycle
invariants. -/
inductive Op where
  | insert : List Value → ImmutableRecord → Op
  | finalize : Op
  | probe : List Value → Op
  | nextMatch : Op
  | close : Op
  | stats : Op

/-- Apply one operation to the table.  A failed operation (assertion, budget
error, panic) produces no successor state in the program, so the model keeps
the table as it was; stats takes the table by shared reference and cannot
mutate it. -/
def step (t : HashTable) : Op → HashTable
  | Op.insert k r =>
    match t.insert k r with
    | Except.ok t2 => t2
    | Except.error _ => t
  | Op.finalize =>
    match t.finalize_build with
    | Except.ok t2 => t2
    | Except.error _ => t
  | Op.probe k =>
    match t.probe k with
    | Except.ok (t2, _) => t2
    | Except.error _ => t
  | Op.nextMatch =>
    match t.next_match with
    | Except.ok (t2, _) => t2
    | Except.error _ => t
  | Op.close => t.close
  | Op.stats => t

/-- Run a sequence of operations from a starting table. -/
def run (t : HashTable) (ops : List Op) : HashTable := ops.foldl step t

/-- Insert a whole build input, stopping at the first failure. -/
def insertAll (t : HashTable) : List (List Value × ImmutableRecord) → Except HashError HashTable
  | [] => Except.ok t
  | p :: rest =>
    match t.insert p.1 p.2 with
    | Except.ok t2 => insertAll t2 rest
    | Except.error e => Except.error e

/-- Entries of a build input that land in bucket i of a table with B buckets,
in insertion order. -/
def entriesFor (B i : Nat) (pairs : List (List Value × ImmutableRecord)) : List HashEntry :=
  (pairs.map mkEntry).filter fun e => e.hash % B == i

/-- Sum of size_bytes over all entries resident in the bucket array. -/
def residentBytes (t : HashTable) : Nat := (t.buckets.map bucket_size_bytes).sum

/-- Extract the table from a successful result; scenario plumbing for
concrete instantiations. -/
def getOk (x : Except HashError HashTable) : HashTable :=
  match x with
  | Except.ok t => t
  | Except.error _ => HashTable.new { initial_buckets := 0, mem_budget := 0, num_keys := 0 }

/-- Build a table from scratch and finalize it. -/
def buildFinalize (cfg : HashTableConfig) (pairs : List (List Value × ImmutableRecord)) :
    Except HashError HashTable :=
  match insertAll (HashTable.new cfg) pairs with
  | Except.ok t => t.finalize_build
  | Except.error e => Except.error e

/-- Table state after a probe call (the table itself when the probe fails). -/
def probeNext (t : HashTable) (k : List Value) : HashTable :=
  match t.probe k with
  | Except.ok (t2, _) => t2
  | Except.error _ => t

/-- Check that probe succeeds and returns a match whose key tuple is equal,
per the comparator, to the queried key tuple. -/
def probeFindsEqual (t : HashTable) (k : List Value) : Bool :=
  match t.probe k with
  | Except.ok (_, some e) => keys_equal e.key_values k
  | _ => false

/-- Table state after j successful next_match calls (a failing call, which
never happens in the scenarios proved below, would leave the table as is). -/
def nmIter (t : HashTable) : Nat → HashTable
  | 0 => t
  | j + 1 =>
    match (nmIter t j).next_match with
    | Except.ok (t2, _) => t2
    | Except.error _ => nmIter t j

/-- Check that the next_match call after j previous next_match calls returns
a match whose key tuple is comparator-equal to k. -/
def nmMatchEquals (t : HashTable) (j : Nat) (k : List Value) : Bool :=
  match (nmIter t j).next_match with
  | Except.ok (_, some e) => keys_equal e.key_values k
  | _ => false

/-- Check that the next_match call after j previous next_match calls signals
exhaustion: it succeeds, returns no match, and leaves the table unchanged. -/
def nmExhausted (t : HashTable) (j : Nat) : Bool :=
  match (nmIter t j).next_match with
  | Except.ok (t2, none) => decide (t2 = nmIter t j)
  | _ => false

/-- Check that every resident entry carries a key tuple of length n. -/
def allKeyLens (t : HashTable) (n : Nat) : Bool :=
  t.buckets.all fun b => b.all fun e => e.key_values.length == n

deriving instance DecidableEq for Except

/-!
Helper lemmas about lists, the bucket scan, and the characterization of each
operation, followed by the claim theorems with their witnesses and
counterexamples.
-/

theorem getD_set_self {α : Type} {l : List α} {i : Nat} (h : i < l.length) (x d : α) :
    (l.set i x).getD i d = x := by
  induction l generalizing i with
  | nil => simp at h
  | cons a tl ih =>
    cases i with
    | zero => simp
    | succ n => simpa using ih (by simpa using h)

theorem getD_set_ne {α : Type} {i j : Nat} (hne : i ≠ j) (l : List α) (x d : α) :
    (l.set i x).getD j d = l.getD j d := by
  induction l generalizing i j with
  | nil => simp
  | cons a tl ih =>
    cases i with
    | zero =>
      cases j with
      | zero => exact absurd rfl hne
      | succ m => simp
    | succ n =>
      cases j with
      | zero => simp
      | succ m => simpa using ih (fun hc => hne (by rw [hc]))

theorem getD_replicate {α : Type} (n i : Nat) (d : α) :
    (List.replicate n d).getD i d = d := by
  induction n generalizing i with
  | zero => simp
  | succ m ih =>
    cases i with
    | zero => simp [List.replicate]
    | succ j => simpa [List.replicate] using ih j

theorem getD_eq_get {α : Type} {l : List α} {i : Nat} (h : i < l.length) (d : α) :
    l.getD i d = l.get ⟨i, h⟩ := by
  induction l generalizing i with
  | nil => simp at h
  | cons a tl ih =>
    cases i with
    | zero => simp
    | succ n => simpa using ih (by simpa using h)

theorem sum_set_append {l : List (List HashEntry)} {i : Nat} (h : i < l.length) (e : HashEntry) :
    ((l.set i (l.getD i [] ++ [e])).map bucket_size_bytes).sum
      = (l.map bucket_size_bytes).sum + e.size_bytes := by
  induction l generalizing i with
  | nil => simp at h
  | cons a tl ih =>
    cases i with
    | zero =>
      simp [bucket_size_bytes, List.map_append]
      omega
    | succ n =>
      have := ih (i := n) (by simpa using h)
      simp only [List.set, List.getD_cons_succ, List.map_cons, List.sum_cons] at this ⊢
      omega

theorem findMatchAux_isSome {h : Nat} {k : List Value} {l : List HashEntry} {e : HashEntry}
    (hmem : e ∈ l) (hm : entryMatches h k e = true) (i : Nat) :
    (findMatchAux h k l i).isSome = true := by
  induction l generalizing i with
  | nil => simp at hmem
  | cons a rest ih =>
    by_cases ha : entryMatches h k a
    · simp [findMatchAux, ha]
    · rcases List.mem_cons.mp hmem with rfl | hmem2
      · exact absurd hm (by simp [ha])
      · simpa [findMatchAux, ha] using ih hmem2 (i + 1)

theorem findMatchAux_some {h : Nat} {k : List Value} {l : List HashEntry} {i j : Nat}
    {e : HashEntry} (hs : findMatchAux h k l i = some (j, e)) :
    entryMatches h k e = true ∧ e ∈ l := by
  induction l generalizing i with
  | nil => simp [findMatchAux] at hs
  | cons a rest ih =>
    by_cases ha : entryMatches h k a
    · simp only [findMatchAux, ha, if_true, Option.some.injEq, Prod.mk.injEq] at hs
      rcases hs with ⟨_, rfl⟩
      exact ⟨ha, by simp⟩
    · simp only [findMatchAux, ha, if_false] at hs
      obtain ⟨hx1, hx2⟩ := ih hs
      exact ⟨hx1, by simp [hx2]⟩

theorem findMatchAux_cons_true {h : Nat} {k : List Value} {e : HashEntry}
    (hm : entryMatches h k e = true) (rest : List HashEntry) (i : Nat) :
    findMatchAux h k (e :: rest) i = some (i, e) := by
  simp [findMatchAux, hm]

theorem insert_ok_elim {t : HashTable} {k : List Value} {r : ImmutableRecord} {t2 : HashTable}
    (h : t.insert k r = Except.ok t2) :
    t.state = HashTableState.Building ∧ 0 < t.buckets.length ∧
    ¬(t.mem_used + (mkEntry (k, r)).size_bytes > t.mem_budget ∧ t.spilled = false) ∧
    t2 = insertEntry t (mkEntry (k, r)) := by
  unfold HashTable.insert at h
  split_ifs at h with h1 h2 h3
  cases h
  exact ⟨by simpa using h1, by omega, h2, rfl⟩

theorem finalize_ok_elim {t t2 : HashTable} (h : t.finalize_build = Except.ok t2) :
    t.state = HashTableState.Building ∧ t2 = { t with state := HashTableState.Probing } := by
  unfold HashTable.finalize_build at h
  split_ifs at h with h1
  refine ⟨by simpa using h1, ?_⟩
  cases h
  rfl

theorem insertEntry_fields (t : HashTable) (e : HashEntry) :
    (insertEntry t e).state = t.state ∧
    (insertEntry t e).buckets.length = t.buckets.length ∧
    (insertEntry t e).mem_budget = t.mem_budget ∧
    (insertEntry t e).num_keys = t.num_keys ∧
    (insertEntry t e).spilled = t.spilled ∧
    (insertEntry t e).probe_bucket_idx = t.probe_bucket_idx ∧
    (insertEntry t e).probe_entry_idx = t.probe_entry_idx ∧
    (insertEntry t e).current_probe_keys = t.current_probe_keys := by
  simp [insertEntry]

theorem entriesFor_cons (B i : Nat) (p : List Value × ImmutableRecord)
    (rest : List (List Value × ImmutableRecord)) :
    entriesFor B i (p :: rest)
      = if (mkEntry p).hash % B == i then mkEntry p :: entriesFor B i rest
        else entriesFor B i rest := by
  by_cases hc : (mkEntry p).hash % B == i <;> simp [entriesFor, hc]

theorem insertAll_ok_spec {pairs : List (List Value × ImmutableRecord)} :
    ∀ {t0 t : HashTable}, insertAll t0 pairs = Except.ok t →
      t0.state = HashTableState.Building →
      t.state = HashTableState.Building ∧
      t.buckets.length = t0.buckets.length ∧
      t.mem_budget = t0.mem_budget ∧
      t.num_keys = t0.num_keys ∧
      t.spilled = t0.spilled ∧
      t.probe_bucket_idx = t0.probe_bucket_idx ∧
      t.probe_entry_idx = t0.probe_entry_idx ∧
      t.current_probe_keys = t0.current_probe_keys ∧
      ∀ i, t.buckets.getD i [] = t0.buckets.getD i [] ++ entriesFor t0.buckets.length i pairs := by
  induction pairs with
  | nil =>
    intro t0 t h hst
    cases h
    exact ⟨hst, rfl, rfl, rfl, rfl, rfl, rfl, rfl, fun i => by simp [entriesFor]⟩
  | cons p rest ih =>
    intro t0 t h hst
    unfold insertAll at h
    rcases hins : t0.insert p.1 p.2 with ⟨e⟩ | ⟨t1⟩ <;> rw [hins] at h
    · cases h
    · obtain ⟨-, hB, -, ht1⟩ := insert_ok_elim hins
      have hmk : mkEntry (p.1, p.2) = mkEntry p := rfl
      rw [hmk] at ht1
      have ht1state : t1.state = HashTableState.Building := by
        rw [ht1]; simpa [insertEntry] using hst
      obtain ⟨hs, hl, hmb, hnk, hsp, hpb, hpe, hcp, hbk⟩ := ih h ht1state
      have hlen1 : t1.buckets.length = t0.buckets.length := by
        rw [ht1]; simp [insertEntry]
      refine ⟨hs, by omega, by rw [hmb, ht1]; simp [insertEntry],
        by rw [hnk, ht1]; simp [insertEntry], by rw [hsp, ht1]; simp [insertEntry],
        by rw [hpb, ht1]; simp [insertEntry], by rw [hpe, ht1]; simp [insertEntry],
        by rw [hcp, ht1]; simp [insertEntry], ?_⟩
    
      intro i
      have hbki := hbk i
      rw [hlen1] at hbki
      rw [hbki, entriesFor_cons, ht1]
      by_cases hcase : (mkEntry p).hash % t0.buckets.length = i
      · have hblt : (mkEntry p).hash % t0.buckets.length < t0.buckets.length :=
          Nat.mod_lt _ hB
        rw [if_pos (by simpa using hcase)]
        simp only [insertEntry]
        rw [← hcase, getD_set_self (by omega)]
        simp
      · rw [if_neg (by simpa using hcase)]
        simp only [insertEntry]
        rw [getD_set_ne (fun hc => hcase hc)]

theorem insertAll_ok_pos {t0 t : HashTable} {p : List Value × ImmutableRecord}
    {rest : List (List Value × ImmutableRecord)}
    (h : insertAll t0 (p :: rest) = Except.ok t) : 0 < t0.buckets.length := by
  unfold insertAll at h
  rcases hins : t0.insert p.1 p.2 with ⟨e⟩ | ⟨t1⟩ <;> rw [hins] at h
  · cases h
  · exact (insert_ok_elim hins).2.1

theorem probe_finds {t : HashTable} {k : List Value} {e : HashEntry}
    (hst : t.state = HashTableState.Probing) (hB : 0 < t.buckets.length)
    (hmem : e ∈ t.buckets.getD (hash_join_key k % t.buckets.length) [])
    (hm : entryMatches (hash_join_key k) k e = true) :
    probeFindsEqual t k = true := by
  unfold probeFindsEqual HashTable.probe
  rw [if_neg (by simp [hst]), if_neg (by omega)]
  have hsome := findMatchAux_isSome hmem hm 0
  rcases hfa : findMatchAux (hash_join_key k) k
      (t.buckets.getD (hash_join_key k % t.buckets.length) []) 0 with _ | ⟨j, e2⟩
  · rw [hfa] at hsome
    simp at hsome
  · have hsat := (findMatchAux_some hfa).1
    simp only [entryMatches, Bool.and_eq_true] at hsat
    exact hsat.2

theorem new_state (cfg : HashTableConfig) :
    (HashTable.new cfg).state = HashTableState.Building := rfl

theorem new_buckets_len (cfg : HashTableConfig) :
    (HashTable.new cfg).buckets.length = cfg.initial_buckets := by
  simp [HashTable.new]

theorem new_getD (cfg : HashTableConfig) (i : Nat) :
    (HashTable.new cfg).buckets.getD i [] = [] := by
  simp only [HashTable.new]
  exact getD_replicate _ i []


/-- Claim C1, amended: for every sequence of successful inserts performed while the
table is Building, after finalize_build succeeds, probing any inserted key tuple
that the comparator deems equal to itself (equivalently, one containing no NaN
float) returns a match whose key tuple is comparator-equal to the query.  The
reflexivity restriction is forced by NaN keys; see C1_counterexample. -/
theorem C1_probe_finds_inserted_key (cfg : HashTableConfig)
    (pairs : List (List Value × ImmutableRecord)) (k : List Value) (r : ImmutableRecord)
    (tb tp : HashTable)
    (hins : insertAll (HashTable.new cfg) pairs = Except.ok tb)
    (hfin : tb.finalize_build = Except.ok tp)
    (hmem : (k, r) ∈ pairs)
    (hrefl : keys_equal k k = true) :
    probeFindsEqual tp k = true := by
  obtain ⟨hs, hl, -, -, -, -, -, -, hbk⟩ := insertAll_ok_spec hins (new_state cfg)
  obtain ⟨-, htp⟩ := finalize_ok_elim hfin
  rw [new_buckets_len] at hl
  have hB : 0 < tb.buckets.length := by
    cases pairs with
    | nil => simp at hmem
    | cons q qrest =>
      have := insertAll_ok_pos hins
      rw [new_buckets_len] at this
      omega
  have htpb : tp.buckets = tb.buckets := by rw [htp]
  have htps : tp.state = HashTableState.Probing := by rw [htp]
  have hmemE : mkEntry (k, r) ∈ tp.buckets.getD (hash_join_key k % tp.buckets.length) [] := by
    rw [htpb]
    rw [hbk, new_getD]
    simp only [List.nil_append]
    unfold entriesFor
    rw [List.mem_filter]
    refine ⟨List.mem_map_of_mem mkEntry hmem, ?_⟩
    have hmh : (mkEntry (k, r)).hash = hash_join_key k := rfl
    rw [hmh, new_buckets_len, hl]
    exact beq_self_eq_true _
  have hm : entryMatches (hash_join_key k) k (mkEntry (k, r)) = true := by
    simp [entryMatches, mkEntry, hrefl]
  exact probe_finds htps (by rw [htpb]; omega) hmemE hm

theorem probe_ok_frame {t : HashTable} {k : List Value} {t2 : HashTable} {o : Option HashEntry}
    (h : t.probe k = Except.ok (t2, o)) :
    t2.buckets = t.buckets ∧ t2.num_entries = t.num_entries ∧ t2.mem_used = t.mem_used ∧
    t2.state = t.state ∧ t2.mem_budget = t.mem_budget ∧ t2.spilled = t.spilled ∧
    t2.num_keys = t.num_keys := by
  unfold HashTable.probe at h
  split_ifs at h with h1 h2
  split at h <;>
  · rw [Except.ok.injEq, Prod.mk.injEq] at h
    obtain ⟨h3, -⟩ := h
    rw [← h3]
    simp [HashTable.setCursor]

theorem next_match_ok_frame {t t2 : HashTable} {o : Option HashEntry}
    (h : t.next_match = Except.ok (t2, o)) :
    t2.buckets = t.buckets ∧ t2.num_entries = t.num_entries ∧ t2.mem_used = t.mem_used ∧
    t2.state = t.state ∧ t2.mem_budget = t.mem_budget ∧ t2.spilled = t.spilled ∧
    t2.num_keys = t.num_keys ∧ t2.probe_bucket_idx = t.probe_bucket_idx ∧
    t2.current_probe_keys = t.current_probe_keys := by
  unfold HashTable.next_match at h
  split at h
  · cases h
  · split at h
    · rw [Except.ok.injEq, Prod.mk.injEq] at h
      obtain ⟨h3, -⟩ := h
      rw [← h3]
      simp
    · split at h
      · cases h
      · split at h <;>
        · rw [Except.ok.injEq, Prod.mk.injEq] at h
          obtain ⟨h3, -⟩ := h
          rw [← h3]
          simp


/-- Claim C8, amended: insert performs no check of the key tuple length against
num_keys; provided every insert of the build passes a key tuple of length
num_keys, every resident entry carries a key tuple of length num_keys.  The
proviso is forced by the missing check; see C8_counterexample. -/
theorem C8_key_length_invariant (cfg : HashTableConfig) (pairs : List (List Value × ImmutableRecord))
    (tb : HashTable)
    (hins : insertAll (HashTable.new cfg) pairs = Except.ok tb)
    (hlen : ∀ p ∈ pairs, p.1.length = cfg.num_keys) :
    allKeyLens tb cfg.num_keys = true := by
  obtain ⟨-, -, -, -, -, -, -, -, hbk⟩ := insertAll_ok_spec hins (new_state cfg)
  unfold allKeyLens
  rw [List.all_eq_true]
  intro b hb
  rw [List.all_eq_true]
  intro e he
  obtain ⟨⟨i, hi⟩, rfl⟩ := List.mem_iff_get.mp hb
  rw [← getD_eq_get hi []] at he
  rw [hbk i, new_getD, List.nil_append] at he
  unfold entriesFor at he
  obtain ⟨hmap, -⟩ := List.mem_filter.mp he
  obtain ⟨p, hp, rfl⟩ := List.mem_map.mp hmap
  simpa [mkEntry] using hlen p hp


/-- Claim C9: on a table that was built and finalized but not yet probed,
next_match signals exhaustion (returns no match, leaving the table unchanged)
instead of failing, because no probe-key tuple is cached. -/
theorem C9_next_match_without_probe (cfg : HashTableConfig) (pairs : List (List Value × ImmutableRecord))
    (tb tp : HashTable)
    (hins : insertAll (HashTable.new cfg) pairs = Except.ok tb)
    (hfin : tb.finalize_build = Except.ok tp) :
    tp.next_match = Except.ok (tp, none) := by
  obtain ⟨-, -, -, -, -, -, -, hcp, -⟩ := insertAll_ok_spec hins (new_state cfg)
  obtain ⟨-, htp⟩ := finalize_ok_elim hfin
  have h1 : tp.current_probe_keys = none := by
    rw [htp]
    simpa [HashTable.new] using hcp
  unfold HashTable.next_match
  rw [if_neg (by rw [htp]; simp), h1]


/-- Claim C3: on a Building table that has not spilled, an insert whose entry
size would push mem_used beyond mem_budget fails with the resource-exhaustion
error, and the table after the failed insert is exactly the table before it:
num_entries, mem_used and every bucket are untouched. -/
theorem C3_insert_over_budget_rejected (t : HashTable) (k : List Value) (r : ImmutableRecord)
    (hstate : t.state = HashTableState.Building) (hsp : t.spilled = false)
    (hover : t.mem_used + (mkEntry (k, r)).size_bytes > t.mem_budget) :
    t.insert k r = Except.error HashError.memBudgetExceeded ∧ step t (Op.insert k r) = t := by
  have h1 : t.insert k r = Except.error HashError.memBudgetExceeded := by
    unfold HashTable.insert
    rw [if_neg (by simp [hstate]), if_pos ⟨hover, hsp⟩]
  exact ⟨h1, by simp [step, h1]⟩

theorem mem_invariant_step {t : HashTable} (hI : t.mem_used = residentBytes t) (op : Op) :
    (step t op).mem_used = residentBytes (step t op) := by
  cases op with
  | insert k r =>
    simp only [step]
    rcases hins : t.insert k r with ⟨e⟩ | ⟨t2⟩
    · exact hI
    · obtain ⟨-, hB, -, ht2⟩ := insert_ok_elim hins
      rw [ht2]
      unfold insertEntry residentBytes
      rw [sum_set_append (Nat.mod_lt _ hB)]
      unfold residentBytes at hI
      simp only []
      omega
  | finalize =>
    simp only [step]
    rcases hfin : t.finalize_build with ⟨e⟩ | ⟨t2⟩
    · exact hI
    · obtain ⟨-, ht2⟩ := finalize_ok_elim hfin
      rw [ht2]
      exact hI
  | probe k =>
    simp only [step]
    rcases hp : t.probe k with ⟨e⟩ | ⟨⟨t2, o⟩⟩
    · exact hI
    · obtain ⟨hb, -, hm, -⟩ := probe_ok_frame hp
      unfold residentBytes
      rw [hb, hm]
      exact hI
  | nextMatch =>
    simp only [step]
    rcases hp : t.next_match with ⟨e⟩ | ⟨⟨t2, o⟩⟩
    · exact hI
    · obtain ⟨hb, -, hm, -⟩ := next_match_ok_frame hp
      unfold residentBytes
      rw [hb, hm]
      exact hI
  | close => simp [step, HashTable.close, residentBytes]
  | stats => exact hI


/-- Claim C4: after every sequence of operations (insert, finalize_build,
probe, next_match, close, stats) run from a fresh table, mem_used equals the
exact sum of size_bytes over all entries resident in the bucket array, where
size_bytes is the per-key footprint (Null 1, Integer 8, Float 8, Text and Blob
byte length) plus the row payload length plus 8 bytes for the stored hash. -/
theorem C4_mem_used_invariant (cfg : HashTableConfig) (ops : List Op) :
    (run (HashTable.new cfg) ops).mem_used = residentBytes (run (HashTable.new cfg) ops) := by
  suffices h : ∀ t : HashTable, t.mem_used = residentBytes t →
      (run t ops).mem_used = residentBytes (run t ops) by
    apply h
    simp [HashTable.new, residentBytes, bucket_size_bytes, List.map_replicate]
  induction ops with
  | nil => intro t h; exact h
  | cons op rest ih => intro t h; exact ih _ (mem_invariant_step h op)

theorem step_buckets_len {cfg : HashTableConfig} {t : HashTable}
    (hJ : t.state = HashTableState.Closed ∨ t.buckets.length = cfg.initial_buckets) (op : Op) :
    (step t op).state = HashTableState.Closed ∨
    (step t op).buckets.length = cfg.initial_buckets := by
  cases op with
  | insert k r =>
    simp only [step]
    rcases hins : t.insert k r with ⟨e⟩ | ⟨t2⟩
    · exact hJ
    · obtain ⟨hst, -, -, ht2⟩ := insert_ok_elim hins
      right
      rw [ht2]
      unfold insertEntry
      simp only [List.length_set]
      rcases hJ with hc | hlen
      · rw [hst] at hc; cases hc
      · exact hlen
  | finalize =>
    simp only [step]
    rcases hfin : t.finalize_build with ⟨e⟩ | ⟨t2⟩
    · exact hJ
    · obtain ⟨hst, ht2⟩ := finalize_ok_elim hfin
      right
      rw [ht2]
      rcases hJ with hc | hlen
      · rw [hst] at hc; cases hc
      · exact hlen
  | probe k =>
    simp only [step]
    rcases hp : t.probe k with ⟨e⟩ | ⟨⟨t2, o⟩⟩
    · exact hJ
    · obtain ⟨hb, -, -, hs, -⟩ := probe_ok_frame hp
      rw [hb, hs]
      exact hJ
  | nextMatch =>
    simp only [step]
    rcases hp : t.next_match with ⟨e⟩ | ⟨⟨t2, o⟩⟩
    · exact hJ
    · obtain ⟨hb, -, -, hs, -⟩ := next_match_ok_frame hp
      rw [hb, hs]
      exact hJ
  | close => left; rfl
  | stats => exact hJ

theorem run_buckets_len (cfg : HashTableConfig) (ops : List Op) :
    (run (HashTable.new cfg) ops).state = HashTableState.Closed ∨
    (run (HashTable.new cfg) ops).buckets.length = cfg.initial_buckets := by
  suffices h : ∀ t : HashTable,
      t.state = HashTableState.Closed ∨ t.buckets.length = cfg.initial_buckets →
      (run t ops).state = HashTableState.Closed ∨
      (run t ops).buckets.length = cfg.initial_buckets by
    apply h
    right
    exact new_buckets_len cfg
  induction ops with
  | nil => intro t h; exact h
  | cons op rest ih => intro t h; exact ih _ (step_buckets_len h op)


/-- Claim C10: for every table created with at least one bucket, no sequence of
operations reaches a state in which insert or probe crashes on the bucket
modulus (division by zero): only close empties the bucket array, close enters
the Closed state, and the state assertions of insert and probe exclude Closed. -/
theorem C10_no_bucket_modulus_crash (cfg : HashTableConfig) (hB : 1 ≤ cfg.initial_buckets) (ops : List Op)
    (k pk : List Value) (r : ImmutableRecord) :
    (run (HashTable.new cfg) ops).insert k r ≠ Except.error HashError.crash ∧
    (run (HashTable.new cfg) ops).probe pk ≠ Except.error HashError.crash := by
  have hJ := run_buckets_len cfg ops
  constructor
  · intro hc
    unfold HashTable.insert at hc
    split_ifs at hc with h1 h2 h3
    · cases hc
    · cases hc
    · have hst : (run (HashTable.new cfg) ops).state = HashTableState.Building := by
        simpa using h1
      rcases hJ with hcl | hlen
      · rw [hst] at hcl; cases hcl
      · omega
  · intro hc
    unfold HashTable.probe at hc
    split_ifs at hc with h1 h2
    · cases hc
    · have hst : (run (HashTable.new cfg) ops).state = HashTableState.Probing := by
        simpa using h1
      rcases hJ with hcl | hlen
      · rw [hst] at hcl; cases hcl
      · omega
    · split at hc <;> cases hc

theorem drop_cons_mem {α : Type} {l : List α} {i : Nat} (h : i < l.length) :
    ∃ a rest, l.drop i = a :: rest ∧ a ∈ l := by
  induction l generalizing i with
  | nil => simp at h
  | cons x tl ih =>
    cases i with
    | zero => exact ⟨x, tl, rfl, by simp⟩
    | succ n =>
      obtain ⟨a, rest, hd, hm⟩ := ih (by simpa using h)
      exact ⟨a, rest, by simpa using hd, by simp [hm]⟩

theorem next_match_uniform {t : HashTable} {k : List Value} {es : List HashEntry}
    (hst : t.state = HashTableState.Probing)
    (hcp : t.current_probe_keys = some k)
    (hbi : t.probe_bucket_idx < t.buckets.length)
    (hband : t.buckets.getD t.probe_bucket_idx [] = es)
    (hall : ∀ e ∈ es, entryMatches (hash_join_key k) k e = true) :
    (t.probe_entry_idx < es.length →
      ∃ e, t.next_match
          = Except.ok ({ t with probe_entry_idx := t.probe_entry_idx + 1 }, some e)
        ∧ entryMatches (hash_join_key k) k e = true) ∧
    (es.length ≤ t.probe_entry_idx → t.next_match = Except.ok (t, none)) := by
  constructor
  · intro hlt
    obtain ⟨a, rest, hd, hm⟩ := drop_cons_mem hlt
    refine ⟨a, ?_, hall a hm⟩
    unfold HashTable.next_match
    rw [if_neg (by simp [hst]), hcp]
    simp only []
    rw [if_neg (by omega), hband, hd, findMatchAux_cons_true (hall a hm)]
  · intro hle
    unfold HashTable.next_match
    rw [if_neg (by simp [hst]), hcp]
    simp only []
    rw [if_neg (by omega), hband, List.drop_eq_nil_of_le hle]
    rfl

theorem nmIter_uniform {t1 : HashTable} {k : List Value} {es : List HashEntry}
    (hst : t1.state = HashTableState.Probing)
    (hcp : t1.current_probe_keys = some k)
    (hbi : t1.probe_bucket_idx < t1.buckets.length)
    (hband : t1.buckets.getD t1.probe_bucket_idx [] = es)
    (hall : ∀ e ∈ es, entryMatches (hash_join_key k) k e = true)
    (hK : 0 < es.length)
    (hidx : t1.probe_entry_idx = 1) :
    ∀ j, nmIter t1 j = { t1 with probe_entry_idx := min (1 + j) es.length } := by
  intro j
  induction j with
  | zero =>
    have hmin : min (1 + 0) es.length = t1.probe_entry_idx := by omega
    rw [nmIter, hmin]
  | succ j ih =>
    have huni := @next_match_uniform { t1 with probe_entry_idx := min (1 + j) es.length }
      k es hst hcp hbi hband hall
    by_cases hlt : min (1 + j) es.length < es.length
    · obtain ⟨e, hnm, -⟩ := huni.1 hlt
      have : nmIter t1 (j + 1)
          = { t1 with probe_entry_idx := min (1 + j) es.length + 1 } := by
        rw [nmIter, ih, hnm]
      rw [this]
      have hmin : min (1 + j) es.length + 1 = min (1 + (j + 1)) es.length := by omega
      rw [hmin]
    · have hle : es.length ≤ min (1 + j) es.length := by omega
      have hnm := huni.2 hle
      have : nmIter t1 (j + 1) = { t1 with probe_entry_idx := min (1 + j) es.length } := by
        rw [nmIter, ih, hnm]
      rw [this]
      have hmin : min (1 + j) es.length = min (1 + (j + 1)) es.length := by omega
      rw [hmin]


/-- Claim C5, amended: inserting the same key tuple K times (for a key the
comparator deems equal to itself, equivalently NaN-free) and finalizing, one
probe returns a first comparator-equal match, the following K-1 next_match
calls each return a comparator-equal match, and every subsequent next_match
call signals exhaustion, repeatedly, leaving the table unchanged.  The
reflexivity restriction is forced by NaN keys; see C5_counterexample. -/
theorem C5_duplicate_key_matches (cfg : HashTableConfig) (k : List Value) (rows : List ImmutableRecord)
    (tb tp : HashTable)
    (hins : insertAll (HashTable.new cfg) (rows.map fun r => (k, r)) = Except.ok tb)
    (hfin : tb.finalize_build = Except.ok tp)
    (hrows : rows ≠ [])
    (hrefl : keys_equal k k = true) :
    probeFindsEqual tp k = true ∧
    (∀ j, j + 1 < rows.length → nmMatchEquals (probeNext tp k) j k = true) ∧
    (∀ j, rows.length ≤ j + 1 → nmExhausted (probeNext tp k) j = true) := by
  obtain ⟨hs, hl, -, -, -, -, -, -, hbk⟩ := insertAll_ok_spec hins (new_state cfg)
  rw [new_buckets_len] at hl
  simp only [new_buckets_len, new_getD, List.nil_append] at hbk
  obtain ⟨-, htp⟩ := finalize_ok_elim hfin
  have htpb : tp.buckets = tb.buckets := by rw [htp]
  have htps : tp.state = HashTableState.Probing := by rw [htp]
  have hB : 0 < tb.buckets.length := by
    cases rows with
    | nil => exact absurd rfl hrows
    | cons r rrest =>
      simp only [List.map_cons] at hins
      have := insertAll_ok_pos hins
      rw [new_buckets_len] at this
      omega
  have hbucket : tb.buckets.getD (hash_join_key k % tb.buckets.length) []
      = rows.map fun r => mkEntry (k, r) := by
    rw [hbk]
    unfold entriesFor
    have h1 : (rows.map fun r => (k, r)).map mkEntry = rows.map fun r => mkEntry (k, r) := by
      rw [List.map_map]
      rfl
    rw [h1, List.filter_eq_self]
    intro e he
    obtain ⟨r, hr, rfl⟩ := List.mem_map.mp he
    rw [hl]
    exact beq_self_eq_true _
  have hall : ∀ e ∈ rows.map fun r => mkEntry (k, r),
      entryMatches (hash_join_key k) k e = true := by
    intro e he
    obtain ⟨r, hr, rfl⟩ := List.mem_map.mp he
    simp [entryMatches, mkEntry, hrefl]
  have hKpos : 0 < (rows.map fun r => mkEntry (k, r)).length := by
    rw [List.length_map]
    exact List.length_pos.mpr hrows
  obtain ⟨e0, erest, hes⟩ : ∃ e0 erest,
      (rows.map fun r => mkEntry (k, r)) = e0 :: erest := by
    cases hrw : rows.map fun r => mkEntry (k, r) with
    | nil => rw [hrw] at hKpos; simp at hKpos
    | cons a l => exact ⟨a, l, rfl⟩
  have he0 : entryMatches (hash_join_key k) k e0 = true := hall e0 (by rw [hes]; simp)
  have hgd : tp.buckets.getD (hash_join_key k % tp.buckets.length) [] = e0 :: erest := by
    rw [htpb, hbucket, hes]
  have hprobe : tp.probe k
      = Except.ok (tp.setCursor k (hash_join_key k % tp.buckets.length) 1, some e0) := by
    unfold HashTable.probe
    rw [if_neg (by simp [htps]), if_neg (by rw [htpb]; omega), hgd,
      findMatchAux_cons_true he0]
  have hpn : probeNext tp k = tp.setCursor k (hash_join_key k % tp.buckets.length) 1 := by
    unfold probeNext
    rw [hprobe]
  have hpfe : probeFindsEqual tp k = true := by
    unfold probeFindsEqual
    rw [hprobe]
    have he02 := he0
    simp only [entryMatches, Bool.and_eq_true] at he02
    exact he02.2
  set t1 := tp.setCursor k (hash_join_key k % tp.buckets.length) 1 with ht1
  have ht1st : t1.state = HashTableState.Probing := htps
  have ht1cp : t1.current_probe_keys = some k := rfl
  have ht1bk : t1.buckets = tp.buckets := rfl
  have ht1bi : t1.probe_bucket_idx < t1.buckets.length := by
    show hash_join_key k % tp.buckets.length < tp.buckets.length
    rw [htpb]
    exact Nat.mod_lt _ hB
  have ht1band : t1.buckets.getD t1.probe_bucket_idx [] = rows.map fun r => mkEntry (k, r) := by
    show tp.buckets.getD (hash_join_key k % tp.buckets.length) [] = _
    rw [htpb, hbucket]
  have ht1idx : t1.probe_entry_idx = 1 := rfl
  have hiter := nmIter_uniform ht1st ht1cp ht1bi ht1band hall hKpos ht1idx
  refine ⟨hpfe, ?_, ?_⟩
  · intro j hj
    have hjlen : j + 1 < (rows.map fun r => mkEntry (k, r)).length := by
      rw [List.length_map]; omega
    have huni := @next_match_uniform
      { t1 with probe_entry_idx := min (1 + j) (rows.map fun r => mkEntry (k, r)).length }
      k (rows.map fun r => mkEntry (k, r))
      ht1st ht1cp ht1bi ht1band hall
    obtain ⟨e, hnm, hme⟩ := huni.1 (by simp only []; omega)
    unfold nmMatchEquals
    rw [hpn, hiter j, hnm]
    simp only [entryMatches, Bool.and_eq_true] at hme
    exact hme.2
  · intro j hj
    have hjlen : (rows.map fun r => mkEntry (k, r)).length ≤ j + 1 := by
      rw [List.length_map]; omega
    have huni := @next_match_uniform
      { t1 with probe_entry_idx := min (1 + j) (rows.map fun r => mkEntry (k, r)).length }
      k (rows.map fun r => mkEntry (k, r))
      ht1st ht1cp ht1bi ht1band hall
    have hnm := huni.2 (by simp only []; omega)
    unfold nmExhausted
    rw [hpn, hiter j, hnm]
    simp

theorem f64IsNaN_not_zero {b : Nat} (h : f64IsNaN b = true) : f64IsZero b = false := by
  by_cases h0 : b = 0
  · subst h0; exact absurd h (by decide)
  · by_cases h1 : b = 0x8000000000000000
    · subst h1; exact absurd h (by decide)
    · simp [f64IsZero, h0, h1]


/-- Claim C7, amended: the key comparator returns false for tuples of different
lengths; for equal lengths it is the conjunction of positional per-value
equality where Null equals Null, Integers compare by exact equality, Floats
compare by IEEE numeric equality (so any NaN is unequal to everything, itself
included, while +0.0 equals -0.0 despite distinct bit patterns, hence not
bit-level equality), Text and Blob compare by exact bytes, and every mismatched
type pair is unequal. -/
theorem C7_comparator_characterization :
    (∀ k1 k2 : List Value, k1.length ≠ k2.length → keys_equal k1 k2 = false) ∧
    (∀ k1 k2 : List Value, keys_equal k1 k2 = true ↔
      k1.length = k2.length ∧
      ∀ (i : Nat) (h1 : i < k1.length) (h2 : i < k2.length),
        values_equal (k1.get ⟨i, h1⟩) (k2.get ⟨i, h2⟩) = true) ∧
    (values_equal Value.null Value.null = true) ∧
    (∀ i j : Int, values_equal (Value.integer i) (Value.integer j) = true ↔ i = j) ∧
    (∀ b1 b2 : Nat, values_equal (Value.float b1) (Value.float b2) = f64Eq b1 b2) ∧
    (∀ b1 b2 : Nat, f64IsNaN b1 = true ∨ f64IsNaN b2 = true → f64Eq b1 b2 = false) ∧
    (f64Eq 0 0x8000000000000000 = true) ∧
    (∀ t1 t2 : List Nat, values_equal (Value.text t1) (Value.text t2) = true ↔ t1 = t2) ∧
    (∀ v1 v2 : List Nat, values_equal (Value.blob v1) (Value.blob v2) = true ↔ v1 = v2) ∧
    (∀ v1 v2 : Value, v1.tag ≠ v2.tag → values_equal v1 v2 = false) := by
  refine ⟨?_, ?_, rfl, ?_, fun b1 b2 => rfl, ?_, by decide, ?_, ?_, ?_⟩
  · intro k1 k2 h
    have hb : (k1.length == k2.length) = false := by simpa using h
    simp [keys_equal, hb]
  · intro k1 k2
    constructor
    · intro h
      simp only [keys_equal, Bool.and_eq_true] at h
      obtain ⟨hlen, hall⟩ := h
      have hlen2 : k1.length = k2.length := by simpa using hlen
      refine ⟨hlen2, ?_⟩
      intro i h1 h2
      rw [List.all_eq_true] at hall
      have hz : (k1.zip k2).length = k1.length := by
        rw [List.length_zip]
        omega
      have hmem : (k1.get ⟨i, h1⟩, k2.get ⟨i, h2⟩) ∈ k1.zip k2 := by
        have : (k1.zip k2).get ⟨i, by omega⟩ = (k1.get ⟨i, h1⟩, k2.get ⟨i, h2⟩) := by
          simp [List.get_eq_getElem, List.getElem_zip]
        rw [← this]
        exact List.get_mem _ _ _
      exact hall _ hmem
    · intro ⟨hlen, hp⟩
      simp only [keys_equal, Bool.and_eq_true]
      refine ⟨by simpa using hlen, ?_⟩
      rw [List.all_eq_true]
      intro p hmem
      obtain ⟨i, hi, hpi⟩ := List.mem_iff_getElem.mp hmem
      have hz : (k1.zip k2).length = k1.length := by
        rw [List.length_zip]
        omega
      have h1 : i < k1.length := by omega
      have h2 : i < k2.length := by omega
      have : (k1.zip k2)[i] = (k1.get ⟨i, h1⟩, k2.get ⟨i, h2⟩) := by
        simp [List.get_eq_getElem, List.getElem_zip]
      rw [this] at hpi
      rw [← hpi]
      exact hp i h1 h2
  · intro i j
    simp [values_equal]
  · intro b1 b2 hn
    rcases hn with hn | hn
    · simp [f64Eq, hn, f64IsNaN_not_zero hn]
    · by_cases he : b1 = b2
      · subst he
        simp [f64Eq, hn, f64IsNaN_not_zero hn]
      · simp [f64Eq, he, f64IsNaN_not_zero hn]
  · intro t1 t2
    simp [values_equal]
  · intro v1 v2
    simp [values_equal]
  · intro v1 v2 h
    cases v1 <;> cases v2 <;> first | rfl | exact absurd rfl h


/-- Claim C2 fails in the code (code bug): the comparator deems the one-column
tuples holding -0.0 and +0.0 equal, but hash_join_key maps them to different
hashes because it hashes the raw bit patterns; consequently a row built under
-0.0 is not found when probing with the comparator-equal key +0.0. -/
theorem C2_hash_unstable_on_zero_pair :
    keys_equal [Value.float 0x8000000000000000] [Value.float 0] = true ∧
    hash_join_key [Value.float 0] ≠ hash_join_key [Value.float 0x8000000000000000] ∧
    buildFinalize ⟨1, 1000, 1⟩ [([Value.float 0x8000000000000000], ⟨[]⟩)]
      = Except.ok (getOk (buildFinalize ⟨1, 1000, 1⟩ [([Value.float 0x8000000000000000], ⟨[]⟩)])) ∧
    probeFindsEqual (getOk (buildFinalize ⟨1, 1000, 1⟩ [([Value.float 0x8000000000000000], ⟨[]⟩)]))
      [Value.float 0] = false := by decide


/-- Claim C1 as stated fails on the code: a NaN float key is inserted
successfully and the table is finalized, yet probe with the very same key tuple
succeeds and returns no match, because the comparator makes NaN unequal to
itself. -/
theorem C1_counterexample :
    buildFinalize ⟨4, 1000, 1⟩ [([Value.float 0x7ff8000000000000], ⟨[]⟩)]
      = Except.ok (getOk (buildFinalize ⟨4, 1000, 1⟩ [([Value.float 0x7ff8000000000000], ⟨[]⟩)])) ∧
    (getOk (buildFinalize ⟨4, 1000, 1⟩ [([Value.float 0x7ff8000000000000], ⟨[]⟩)])).probe
        [Value.float 0x7ff8000000000000]
      = Except.ok (probeNext
          (getOk (buildFinalize ⟨4, 1000, 1⟩ [([Value.float 0x7ff8000000000000], ⟨[]⟩)]))
          [Value.float 0x7ff8000000000000], none) ∧
    probeFindsEqual (getOk (buildFinalize ⟨4, 1000, 1⟩ [([Value.float 0x7ff8000000000000], ⟨[]⟩)]))
      [Value.float 0x7ff8000000000000] = false := by decide


/-- Witness for C1_probe_finds_inserted_key at a concrete scenario: one integer
key inserted, finalized, and probed back. -/
theorem C1_witness :
    probeFindsEqual (getOk ((getOk (insertAll (HashTable.new ⟨2, 1000, 1⟩)
      [([Value.integer 7], ⟨[2, 3]⟩)])).finalize_build)) [Value.integer 7] = true :=
  C1_probe_finds_inserted_key ⟨2, 1000, 1⟩ [([Value.integer 7], ⟨[2, 3]⟩)] [Value.integer 7] ⟨[2, 3]⟩
    (getOk (insertAll (HashTable.new ⟨2, 1000, 1⟩) [([Value.integer 7], ⟨[2, 3]⟩)]))
    (getOk ((getOk (insertAll (HashTable.new ⟨2, 1000, 1⟩)
      [([Value.integer 7], ⟨[2, 3]⟩)])).finalize_build))
    (by decide) (by decide) (by decide) (by decide)


/-- Witness for C3_insert_over_budget_rejected: a fresh table with a zero
budget rejects the first insert without mutation. -/
theorem C3_witness :
    (HashTable.new ⟨1, 0, 1⟩).insert [Value.null] ⟨[]⟩
      = Except.error HashError.memBudgetExceeded ∧
    step (HashTable.new ⟨1, 0, 1⟩) (Op.insert [Value.null] ⟨[]⟩) = HashTable.new ⟨1, 0, 1⟩ :=
  C3_insert_over_budget_rejected (HashTable.new ⟨1, 0, 1⟩) [Value.null] ⟨[]⟩ (by decide) (by decide) (by decide)


/-- Claim C5 as stated fails on the code: with K = 1 insert of a NaN float key
the build and finalize succeed, but the probe produces no match at all (and
next_match none either), instead of the claimed exactly one match. -/
theorem C5_counterexample :
    buildFinalize ⟨2, 500, 1⟩ [([Value.float 0x7ff8000000000000], ⟨[9]⟩)]
      = Except.ok (getOk (buildFinalize ⟨2, 500, 1⟩ [([Value.float 0x7ff8000000000000], ⟨[9]⟩)])) ∧
    probeFindsEqual (getOk (buildFinalize ⟨2, 500, 1⟩ [([Value.float 0x7ff8000000000000], ⟨[9]⟩)]))
      [Value.float 0x7ff8000000000000] = false ∧
    nmMatchEquals (probeNext
        (getOk (buildFinalize ⟨2, 500, 1⟩ [([Value.float 0x7ff8000000000000], ⟨[9]⟩)]))
        [Value.float 0x7ff8000000000000]) 0 [Value.float 0x7ff8000000000000] = false := by decide


/-- Witness for C5_duplicate_key_matches at K = 2: one probe match, one
next_match match, then exhaustion. -/
theorem C5_witness :
    probeFindsEqual (getOk ((getOk (insertAll (HashTable.new ⟨2, 1000, 1⟩)
        ([⟨[1]⟩, ⟨[2]⟩].map fun r => ([Value.integer 5], r)))).finalize_build))
      [Value.integer 5] = true ∧
    nmMatchEquals (probeNext (getOk ((getOk (insertAll (HashTable.new ⟨2, 1000, 1⟩)
        ([⟨[1]⟩, ⟨[2]⟩].map fun r => ([Value.integer 5], r)))).finalize_build))
      [Value.integer 5]) 0 [Value.integer 5] = true ∧
    nmExhausted (probeNext (getOk ((getOk (insertAll (HashTable.new ⟨2, 1000, 1⟩)
        ([⟨[1]⟩, ⟨[2]⟩].map fun r => ([Value.integer 5], r)))).finalize_build))
      [Value.integer 5]) 1 = true := by
  have h := C5_duplicate_key_matches ⟨2, 1000, 1⟩ [Value.integer 5] [⟨[1]⟩, ⟨[2]⟩]
    (getOk (insertAll (HashTable.new ⟨2, 1000, 1⟩)
      ([⟨[1]⟩, ⟨[2]⟩].map fun r => ([Value.integer 5], r))))
    (getOk ((getOk (insertAll (HashTable.new ⟨2, 1000, 1⟩)
      ([⟨[1]⟩, ⟨[2]⟩].map fun r => ([Value.integer 5], r)))).finalize_build))
    (by decide) (by decide) (by decide) (by decide)
  exact ⟨h.1, h.2.1 0 (by decide), h.2.2 1 (by decide)⟩


/-- Claim C7 as stated fails on the code: float comparison is not IEEE
bit-level equality, since the distinct bit patterns of +0.0 and -0.0 compare
equal. -/
theorem C7_counterexample :
    values_equal (Value.float 0) (Value.float 0x8000000000000000) = true ∧
    (0 : Nat) ≠ 0x8000000000000000 := by decide


/-- Witness for C7_comparator_characterization at concrete inputs: a length
mismatch, a NaN self-comparison, and a mismatched type pair. -/
theorem C7_witness :
    keys_equal [Value.null] [] = false ∧
    f64Eq 0x7ff8000000000000 0x7ff8000000000000 = false ∧
    values_equal (Value.integer 3) (Value.text []) = false :=
  ⟨C7_comparator_characterization.1 [Value.null] [] (by decide),
   C7_comparator_characterization.2.2.2.2.2.1 0x7ff8000000000000 0x7ff8000000000000 (Or.inl (by decide)),
   C7_comparator_characterization.2.2.2.2.2.2.2.2.2 (Value.integer 3) (Value.text []) (by decide)⟩


/-- Claim C8 as stated fails on the code: a table configured with num_keys = 1
accepts an insert with a length-2 key tuple, and the resident entry keeps
length 2. -/
theorem C8_counterexample :
    insertAll (HashTable.new ⟨1, 1000, 1⟩) [([Value.integer 1, Value.integer 2], ⟨[]⟩)]
      = Except.ok (getOk (insertAll (HashTable.new ⟨1, 1000, 1⟩)
          [([Value.integer 1, Value.integer 2], ⟨[]⟩)])) ∧
    allKeyLens (getOk (insertAll (HashTable.new ⟨1, 1000, 1⟩)
      [([Value.integer 1, Value.integer 2], ⟨[]⟩)])) 1 = false := by decide


/-- Witness for C8_key_length_invariant: a two-column build where every
resident key has the configured length. -/
theorem C8_witness :
    allKeyLens (getOk (insertAll (HashTable.new ⟨2, 1000, 2⟩)
      [([Value.integer 1, Value.integer 2], ⟨[]⟩)])) 2 = true :=
  C8_key_length_invariant ⟨2, 1000, 2⟩ [([Value.integer 1, Value.integer 2], ⟨[]⟩)]
    (getOk (insertAll (HashTable.new ⟨2, 1000, 2⟩)
      [([Value.integer 1, Value.integer 2], ⟨[]⟩)]))
    (by decide) (by decide)


/-- Witness for C9_next_match_without_probe on a concrete one-row build. -/
theorem C9_witness :
    (getOk (buildFinalize ⟨2, 1000, 1⟩ [([Value.integer 3], ⟨[7]⟩)])).next_match
      = Except.ok (getOk (buildFinalize ⟨2, 1000, 1⟩ [([Value.integer 3], ⟨[7]⟩)]), none) :=
  C9_next_match_without_probe ⟨2, 1000, 1⟩ [([Value.integer 3], ⟨[7]⟩)]
    (getOk (insertAll (HashTable.new ⟨2, 1000, 1⟩) [([Value.integer 3], ⟨[7]⟩)]))
    (getOk (buildFinalize ⟨2, 1000, 1⟩ [([Value.integer 3], ⟨[7]⟩)]))
    (by decide) (by decide)


/-- Witness for C10_no_bucket_modulus_crash after a concrete build-and-finalize
history. -/
theorem C10_witness :
    (run (HashTable.new ⟨1, 100, 1⟩) [Op.insert [Value.integer 1] ⟨[]⟩, Op.finalize]).insert
        [Value.null] ⟨[]⟩ ≠ Except.error HashError.crash ∧
    (run (HashTable.new ⟨1, 100, 1⟩) [Op.insert [Value.integer 1] ⟨[]⟩, Op.finalize]).probe
        [Value.null] ≠ Except.error HashError.crash :=
  C10_no_bucket_modulus_crash ⟨1, 100, 1⟩ (by decide) [Op.insert [Value.integer 1] ⟨[]⟩, Op.finalize]
    [Value.null] [Value.null] ⟨[]⟩
